import Mathlib

/-!
Verification of the change-detection core of the
`n8n-nodes-global-workflow-updated-trigger` package.

The development shallowly embeds two pieces of the source:

* `src/dist/lib/diff.js` — the pure decision function `shouldEmit`;
* `src/src/nodes/GlobalWorkflowUpdatedTrigger.node.ts` — the polling
  cycle body (`loop`): listing, per-item filtering and decision,
  best-effort enrichment, batch-size cap, emission, and the watermark
  update.

JavaScript date parsing (`new Date(s).getTime()`) is a platform
builtin, not repository code; it is abstracted as a parameter
`parse : String → Option Int`, where `none` models an invalid date
(`NaN` epoch-milliseconds value).  The ECMAScript relational
comparison `a > b` on dates compares the two millisecond values and
is `false` whenever either side is `NaN`; `jsGtMs` models exactly
that.
-/

namespace GWUT

/-- Epoch default string from diff.js: `'1970-01-01T00:00:00.000Z'`. -/
def epochIso : String := "1970-01-01T00:00:00.000Z"

/-- Models the JavaScript expression `s || epochIso` for a string `s`:
the empty string is falsy and is replaced by the epoch string. -/
def defaultStr (s : String) : String := if s = "" then epochIso else s

/-- Models `s || epochIso` for a `string | undefined` value: both
`undefined` and the empty string fall back to the epoch string. -/
def defaultOptStr : Option String → String
  | none => epochIso
  | some s => defaultStr s

/-- Models the ECMAScript comparison `u > w` between a valid date with
millisecond value `u` and a date `w` (`none` = invalid date, `NaN`):
any comparison against `NaN` yields `false`. -/
def jsGtMs (u : Int) : Option Int → Bool
  | none => false
  | some w => decide (w < u)

/-- Argument record of `shouldEmit` (diff.js): `updatedAtIso` is
`string | undefined`, `lastSyncIso` a string, `seenAtIso` optional. -/
structure EmitParams where
  updatedAtIso : Option String
  lastSyncIso : String
  seenAtIso : Option String
deriving DecidableEq

/-- Embedding of `shouldEmit` from `src/dist/lib/diff.js`:

* `if (!params.updatedAtIso) return false;` — absent or empty;
* `const updatedAt = new Date(...); if (Number.isNaN(...)) return false;`
* `const lastSync = new Date(params.lastSyncIso || epoch);`
* `const seenAt = new Date(params.seenAtIso || epoch);`
* `return updatedAt > lastSync && updatedAt > seenAt;`

`parse` abstracts `new Date(s).getTime()` (`none` = `NaN`). -/
def shouldEmit (parse : String → Option Int) (p : EmitParams) : Bool :=
  match p.updatedAtIso with
  | none => false
  | some str =>
    if str = "" then false
    else
      match parse str with
      | none => false
      | some u =>
        jsGtMs u (parse (defaultStr p.lastSyncIso)) &&
          jsGtMs u (parse (defaultOptStr p.seenAtIso))

/-- Concrete instantiation of the abstract date parser, used to
evaluate the development on closed inputs: a small table of
timestamp strings in increasing order. -/
def parseEx : String → Option Int := fun s =>
  if s = epochIso then some 0
  else if s = "t1" then some 10
  else if s = "t2" then some 20
  else if s = "t3" then some 30
  else none

/-- Evaluation lemma: `shouldEmit` on a present, non-empty, parseable
candidate timestamp reduces to the two guarded comparisons. -/
theorem shouldEmit_some (parse : String → Option Int) (str ls : String)
    (sn : Option String) (u : Int) (hstr : str ≠ "") (hpu : parse str = some u) :
    shouldEmit parse ⟨some str, ls, sn⟩ =
      (jsGtMs u (parse (defaultStr ls)) && jsGtMs u (parse (defaultOptStr sn))) := by
  simp [shouldEmit, hstr, hpu]

/-- C1: `shouldEmit` returns `true` iff `updatedAtRaw` is present,
non-empty, and parses to a timestamp strictly greater than both the
parsed `lastSync` watermark and the parsed `seenAt` watermark (the
watermarks being taken after their empty/absent → epoch defaulting);
in particular an absent, empty or unparseable `updatedAtRaw` yields
`false`, and equality with either watermark yields `false`. -/
theorem shouldEmit_iff (parse : String → Option Int) (p : EmitParams) (l s : Int)
    (hl : parse (defaultStr p.lastSyncIso) = some l)
    (hs : parse (defaultOptStr p.seenAtIso) = some s) :
    (shouldEmit parse p = true ↔
      ∃ str u, p.updatedAtIso = some str ∧ str ≠ "" ∧ parse str = some u ∧
        l < u ∧ s < u) ∧
    ((p.updatedAtIso = none ∨ p.updatedAtIso = some "" ∨
        ∃ str, p.updatedAtIso = some str ∧ parse str = none) →
      shouldEmit parse p = false) ∧
    (∀ str, p.updatedAtIso = some str →
      (parse str = some l ∨ parse str = some s) → shouldEmit parse p = false) := by
  obtain ⟨upd, ls, sn⟩ := p
  cases upd with
  | none =>
    refine ⟨?_, fun _ => rfl, fun str hstr _ => by cases hstr⟩
    simp [shouldEmit]
  | some str =>
    by_cases hstr : str = ""
    · subst hstr
      refine ⟨?_, fun _ => by simp [shouldEmit], ?_⟩
      · simp [shouldEmit]
      · intro str' hstr' _
        cases hstr'
        simp [shouldEmit]
    · cases hpu : parse str with
      | none =>
        refine ⟨?_, fun _ => by simp [shouldEmit, hstr, hpu], ?_⟩
        · constructor
          · intro h
            rw [show shouldEmit parse ⟨some str, ls, sn⟩ = false by
              simp [shouldEmit, hstr, hpu]] at h
            cases h
          · rintro ⟨str', u, heq, -, hpu', -, -⟩
            cases heq
            rw [hpu] at hpu'
            cases hpu'
        · intro str' heq hor
          cases heq
          simp [shouldEmit, hstr, hpu]
      | some u =>
        rw [shouldEmit_some parse str ls sn u hstr hpu, hl, hs]
        refine ⟨?_, ?_, ?_⟩
        · constructor
          · intro h
            simp only [jsGtMs, Bool.and_eq_true, decide_eq_true_eq] at h
            exact ⟨str, u, rfl, hstr, hpu, h.1, h.2⟩
          · rintro ⟨str', u', heq, -, hpu', hlu, hsu⟩
            cases heq
            rw [hpu] at hpu'
            cases hpu'
            simp only [jsGtMs, Bool.and_eq_true, decide_eq_true_eq]
            exact ⟨hlu, hsu⟩
        · rintro (h | h | ⟨str', heq, hnone⟩)
          · cases h
          · rw [Option.some_inj] at h
            exact absurd h hstr
          · cases heq
            rw [hpu] at hnone
            cases hnone
        · intro str' heq hor
          cases heq
          rcases hor with h | h
          · rw [hpu] at h
            cases h
            simp [jsGtMs]
          · rw [hpu] at h
            cases h
            simp [jsGtMs]

/-- Witness for C1: a candidate strictly above both watermarks is
emitted. -/
theorem shouldEmit_iff_witness :
    shouldEmit parseEx ⟨some "t3", "t1", some "t2"⟩ = true :=
  ((shouldEmit_iff parseEx ⟨some "t3", "t1", some "t2"⟩ 10 20
      (by decide) (by decide)).1).mpr
    ⟨"t3", 30, rfl, by decide, by decide, by decide, by decide⟩

/-- C3 counterexample: a corrupted (non-empty, unparseable) lastSync
watermark is not treated as the epoch: with the epoch string the
candidate is emitted, with the corrupted string it is not (comparison
against an invalid date is always false). -/
theorem corruptWatermark_cex :
    shouldEmit parseEx ⟨some "t3", "zzz", none⟩ ≠
      shouldEmit parseEx ⟨some "t3", epochIso, none⟩ := by decide

/-- C3 amended: an absent or empty watermark behaves exactly as the
epoch string (for `lastSyncRaw`: empty; for `seenAtRaw`: absent or
empty); a corrupted (non-empty, unparseable) watermark instead makes
`shouldEmit` return `false` outright, whatever the candidate. -/
theorem watermark_default_epoch (parse : String → Option Int)
    (upd : Option String) (ls : String) (sn : Option String) :
    (shouldEmit parse ⟨upd, "", sn⟩ = shouldEmit parse ⟨upd, epochIso, sn⟩) ∧
    (shouldEmit parse ⟨upd, ls, none⟩ = shouldEmit parse ⟨upd, ls, some ""⟩) ∧
    (shouldEmit parse ⟨upd, ls, none⟩ = shouldEmit parse ⟨upd, ls, some epochIso⟩) ∧
    (ls ≠ "" → parse ls = none → shouldEmit parse ⟨upd, ls, sn⟩ = false) ∧
    (∀ sn', sn = some sn' → sn' ≠ "" → parse sn' = none →
      shouldEmit parse ⟨upd, ls, sn⟩ = false) := by
  have hde : defaultStr epochIso = epochIso := by
    simp [defaultStr, epochIso]
  refine ⟨?_, ?_, ?_, ?_, ?_⟩
  · simp [shouldEmit, defaultStr, hde]
  · simp [shouldEmit, defaultOptStr, defaultStr]
  · simp [shouldEmit, defaultOptStr, hde]
  · intro hne hnone
    cases upd with
    | none => rfl
    | some str =>
      by_cases hstr : str = ""
      · simp [shouldEmit, hstr]
      · cases hpu : parse str with
        | none => simp [shouldEmit, hstr, hpu]
        | some u =>
          rw [shouldEmit_some parse str ls sn u hstr hpu]
          rw [show defaultStr ls = ls from if_neg hne, hnone]
          simp [jsGtMs]
  · intro sn' hsn hne hnone
    cases hsn
    cases upd with
    | none => rfl
    | some str =>
      by_cases hstr : str = ""
      · simp [shouldEmit, hstr]
      · cases hpu : parse str with
        | none => simp [shouldEmit, hstr, hpu]
        | some u =>
          rw [shouldEmit_some parse str ls (some sn') u hstr hpu]
          rw [show defaultOptStr (some sn') = sn' by
            simp [defaultOptStr, defaultStr, hne], hnone]
          simp [jsGtMs]

/-- Witness for C3 (amended): empty watermarks behave as the epoch,
and a corrupted seenAt watermark forces a negative decision. -/
theorem watermark_default_epoch_witness :
    (shouldEmit parseEx ⟨some "t3", "", some "t2"⟩ =
      shouldEmit parseEx ⟨some "t3", epochIso, some "t2"⟩) ∧
    shouldEmit parseEx ⟨some "t3", "t1", some "zzz"⟩ = false :=
  ⟨(watermark_default_epoch parseEx (some "t3") "t1" (some "t2")).1,
    (watermark_default_epoch parseEx (some "t3") "t1" (some "zzz")).2.2.2.2
      "zzz" rfl (by decide) (by decide)⟩

/-- One candidate item of the listing returned by
`getAllWorkflows`, after the `String(wf.id)` normalisation:
`id = none` models `!wf || wf.id == null`; `updatedAt` and
`updated_at` are the two accepted field-name variants. -/
structure WorkflowItem where
  id : Option String
  name : Option String
  updatedAt : Option String
  updated_at : Option String
deriving DecidableEq

/-- The persisted watermark state (`staticData` after the lazy
defaulting of `lastSync` and `seenMap`); the JS object `seenMap` is
modelled as an association list with replace-on-assign semantics. -/
structure WatermarkState where
  lastSync : String
  seenMap : List (String × String)
deriving DecidableEq

/-- Read `m[key]` on the modelled JS object (first binding wins;
`setKey` keeps keys unique). -/
def getKey : List (String × String) → String → Option String
  | [], _ => none
  | (k, v) :: rest, key => if k = key then some v else getKey rest key

/-- Assignment `m[key] = v` on the modelled JS object: replaces the
existing binding or appends a new one. -/
def setKey : List (String × String) → String → String → List (String × String)
  | [], key, v => [(key, v)]
  | (k, w) :: rest, key, v =>
    if k = key then (key, v) :: rest else (k, w) :: setKey rest key v

/-- Configuration and external collaborators of one cycle, with the
enrichment detail type `D` kept opaque: `parse` abstracts the date
parser, `matchesExclude` the case-insensitive `excludeRegex.test`
(constantly false when no pattern is configured), `fetchDetail` the
`getWorkflow` call together with its `data` unwrapping and truthiness
check (`none` = fetch failure or falsy payload). -/
structure Env (D : Type) where
  parse : String → Option Int
  matchesExclude : String → Bool
  emitFullWorkflow : Bool
  fetchDetail : String → Option D
  maxPerCycle : Int

/-- One output record pushed onto `toEmit`:
`{ id, name, updatedAt, workflow? }`. -/
structure Payload (D : Type) where
  id : String
  name : String
  updatedAt : String
  workflow : Option D
deriving DecidableEq

/-- Per-item body of the scanning loop, up to the cap check: `none`
when the item is skipped (`continue`) — missing id, excluded name, or
a negative `shouldEmit` decision — and `some payload` when the item
qualifies.  The watermarks are those of `st`: `lastSync` as read once
before the loop (`lastSyncDateIso`) and the pre-cycle `seenMap`. -/
def mkPayloadOpt {D : Type} (env : Env D) (st : WatermarkState)
    (wf : WorkflowItem) : Option (Payload D) :=
  match wf.id with
  | none => none
  | some id =>
    let name := wf.name.getD ("workflow-" ++ id)
    if env.matchesExclude name then none
    else
      let updatedAtIso := wf.updatedAt <|> wf.updated_at
      if shouldEmit env.parse ⟨updatedAtIso, st.lastSync, getKey st.seenMap id⟩ then
        some { id := id, name := name, updatedAt := updatedAtIso.getD "",
               workflow := if env.emitFullWorkflow then env.fetchDetail id else none }
      else none

/-- The `for (const wf of list)` loop building `toEmit`: `cnt` is the
number of payloads already pushed (the loop only reads `toEmit` via
its length), and after a push the loop breaks when
`maxPerCycle > 0 && toEmit.length >= maxPerCycle`. -/
def scanItems {D : Type} (env : Env D) (st : WatermarkState) (cnt : Nat) :
    List WorkflowItem → List (Payload D)
  | [] => []
  | wf :: rest =>
    match mkPayloadOpt env st wf with
    | none => scanItems env st cnt rest
    | some p =>
      if 0 < env.maxPerCycle ∧ env.maxPerCycle ≤ (cnt : Int) + 1 then [p]
      else p :: scanItems env st (cnt + 1) rest

/-- One iteration of the polling loop's `try` block: a failed listing
(`.error`) is caught and changes nothing; otherwise the batch is
scanned and, only when non-empty, emitted (`some batch`, modelling the
single `this.emit([toEmit])` call) with `lastSync` set to the
wall-clock string `now` and every emitted record written into
`seenMap`.  The returned pair is (new state, sink call). -/
def runCycle {D : Type} (env : Env D) (st : WatermarkState)
    (listing : Except Unit (List WorkflowItem)) (now : String) :
    WatermarkState × Option (List (Payload D)) :=
  match listing with
  | .error _ => (st, none)
  | .ok items =>
    match scanItems env st 0 items with
    | [] => (st, none)
    | p :: rest =>
      ({ lastSync := now,
         seenMap := (p :: rest).foldl (fun m q => setKey m q.id q.updatedAt)
           st.seenMap },
       some (p :: rest))

/-- The polling loop over a finite schedule of (listing result,
wall-clock at emission) pairs, threading the watermark state and
recording each cycle's sink call. -/
def runCycles {D : Type} (env : Env D) :
    List (Except Unit (List WorkflowItem) × String) → WatermarkState →
    WatermarkState × List (Option (List (Payload D)))
  | [], st => (st, [])
  | (inp, now) :: rest, st =>
    let step := runCycle env st inp now
    let tail := runCycles env rest step.1
    (tail.1, step.2 :: tail.2)

/-- Detail-independent part of an output record. -/
def coreFields {D : Type} (p : Payload D) : String × String × String :=
  (p.id, p.name, p.updatedAt)

/-- Example environment with a batch cap of 1 (detail type `Nat`,
no exclusion, no enrichment). -/
def envEx : Env Nat :=
  { parse := parseEx, matchesExclude := fun _ => false,
    emitFullWorkflow := false, fetchDetail := fun _ => none, maxPerCycle := 1 }

/-- Example environment with an unlimited batch (cap 0). -/
def envNoCap : Env Nat := { envEx with maxPerCycle := 0 }

/-- Initial watermark state: epoch `lastSync`, empty `seenMap`. -/
def st0 : WatermarkState := ⟨epochIso, []⟩

/-- Item a, updated at time `"t1"` (value 10 under `parseEx`). -/
def itemA : WorkflowItem := ⟨some "a", some "A", some "t1", none⟩

/-- Item a again, updated at time `"t2"` (value 20 under `parseEx`). -/
def itemA2 : WorkflowItem := ⟨some "a", some "A", some "t2", none⟩

/-- Item b, updated at time `"t3"` (value 30 under `parseEx`). -/
def itemB : WorkflowItem := ⟨some "b", some "B", some "t3", none⟩

/-- Item c, with an unparseable update timestamp. -/
def itemC : WorkflowItem := ⟨some "c", some "C", some "zzz", none⟩

/-- Payload emitted for `itemA`. -/
def payloadA : Payload Nat := ⟨"a", "A", "t1", none⟩

/-- Payload emitted for `itemB`. -/
def payloadB : Payload Nat := ⟨"b", "B", "t3", none⟩

/-- C5: a cycle whose scan produces an empty batch calls the emission
sink not at all and leaves the watermark state exactly as it was; and
the sink, when called, is never called with an empty batch. -/
theorem emptyBatch_frame {D : Type} (env : Env D) (st : WatermarkState)
    (items : List WorkflowItem) (now : String)
    (h : scanItems env st 0 items = []) :
    runCycle env st (.ok items) now = (st, none) ∧
    (∀ inp b, (runCycle env st inp now).2 = some b → b ≠ []) := by
  constructor
  · simp [runCycle, h]
  · intro inp b hb
    cases inp with
    | error e => simp [runCycle] at hb
    | ok its =>
      cases hscan : scanItems env st 0 its with
      | nil => simp [runCycle, hscan] at hb
      | cons p rest =>
        simp [runCycle, hscan] at hb
        rw [← hb]
        simp

/-- Witness for C5: a listing whose only item has an unparseable
timestamp yields no sink call and an untouched state. -/
theorem emptyBatch_frame_witness :
    runCycle envNoCap st0 (.ok [itemC]) "t2" = (st0, none) :=
  (emptyBatch_frame envNoCap st0 [itemC] "t2" (by decide)).1

/-- C6: a failed listing fetch is caught: the cycle calls the sink not
at all, leaves the watermark state unchanged, and the loop proceeds to
the remaining cycles exactly as if the failed cycle had not happened. -/
theorem listingFailure_frame {D : Type} (env : Env D) (st : WatermarkState)
    (now : String) (rest : List (Except Unit (List WorkflowItem) × String)) :
    runCycle env st (.error ()) now = (st, none) ∧
    runCycles env ((Except.error (), now) :: rest) st =
      ((runCycles env rest st).1, none :: (runCycles env rest st).2) := by
  exact ⟨rfl, rfl⟩

/-- C9: each cycle either leaves `lastSync` unchanged or replaces it
with the wall-clock string `now`; hence, when the wall clock is not
behind the current watermark, the parsed `lastSync` value never
decreases. -/
theorem lastSync_monotone {D : Type} (env : Env D) (st : WatermarkState)
    (inp : Except Unit (List WorkflowItem)) (now : String) (a b : Int)
    (ha : env.parse st.lastSync = some a)
    (hb : env.parse now = some b) (hab : a ≤ b) :
    ((runCycle env st inp now).1.lastSync = st.lastSync ∨
      (runCycle env st inp now).1.lastSync = now) ∧
    ∃ c, env.parse (runCycle env st inp now).1.lastSync = some c ∧ a ≤ c := by
  cases inp with
  | error e => exact ⟨Or.inl rfl, a, ha, le_refl a⟩
  | ok items =>
    cases hscan : scanItems env st 0 items with
    | nil =>
      constructor
      · exact Or.inl (by simp [runCycle, hscan])
      · exact ⟨a, by simp [runCycle, hscan, ha], le_refl a⟩
    | cons p rest =>
      constructor
      · exact Or.inr (by simp [runCycle, hscan])
      · exact ⟨b, by simp [runCycle, hscan, hb], hab⟩

/-- Witness for C9: an emitting cycle moves `lastSync` from the epoch
to the (later) emission wall-clock string. -/
theorem lastSync_monotone_witness :
    (((runCycle envEx st0 (.ok [itemA]) "t2").1.lastSync = st0.lastSync ∨
      (runCycle envEx st0 (.ok [itemA]) "t2").1.lastSync = "t2") ∧
    ∃ c, envEx.parse (runCycle envEx st0 (.ok [itemA]) "t2").1.lastSync =
      some c ∧ (0 : Int) ≤ c) :=
  lastSync_monotone envEx st0 (.ok [itemA]) "t2" 0 20
    (by decide) (by decide) (by decide)

/-- The skip/qualify decision and the core output fields do not
depend on the detail fetcher. -/
theorem mkPayloadOpt_core_fetch {D : Type} (env : Env D) (st : WatermarkState)
    (wf : WorkflowItem) (f g : String → Option D) :
    Option.map coreFields (mkPayloadOpt { env with fetchDetail := f } st wf) =
      Option.map coreFields (mkPayloadOpt { env with fetchDetail := g } st wf) := by
  obtain ⟨wid, wname, wupd, wupd2⟩ := wf
  cases wid with
  | none => rfl
  | some id =>
    by_cases hex : env.matchesExclude (wname.getD ("workflow-" ++ id)) = true
    · simp [mkPayloadOpt, hex]
    · by_cases hse : shouldEmit env.parse
          ⟨wupd <|> wupd2, st.lastSync, getKey st.seenMap id⟩ = true
      · simp [mkPayloadOpt, hex, hse, coreFields]
      · simp [mkPayloadOpt, hex, hse]

/-- The whole scan, projected to core output fields, does not depend
on the detail fetcher. -/
theorem scanItems_core_fetch {D : Type} (env : Env D) (st : WatermarkState)
    (f g : String → Option D) :
    ∀ (items : List WorkflowItem) (cnt : Nat),
      (scanItems { env with fetchDetail := f } st cnt items).map coreFields =
        (scanItems { env with fetchDetail := g } st cnt items).map coreFields := by
  intro items
  induction items with
  | nil => intro cnt; rfl
  | cons wf rest ih =>
    intro cnt
    have h := mkPayloadOpt_core_fetch env st wf f g
    cases hf : mkPayloadOpt { env with fetchDetail := f } st wf with
    | none =>
      rw [hf] at h
      cases hg : mkPayloadOpt { env with fetchDetail := g } st wf with
      | none => simp [scanItems, hf, hg, ih cnt]
      | some q => rw [hg] at h; simp at h
    | some p =>
      rw [hf] at h
      cases hg : mkPayloadOpt { env with fetchDetail := g } st wf with
      | none => rw [hg] at h; simp at h
      | some q =>
        rw [hg] at h
        simp only [Option.map_some', Option.some_inj] at h
        by_cases hcap : 0 < env.maxPerCycle ∧ env.maxPerCycle ≤ (cnt : Int) + 1
        · simp [scanItems, hf, hg, hcap, h]
        · simp [scanItems, hf, hg, hcap, h, ih (cnt + 1)]

/-- A qualifying payload's detail field is exactly the (guarded)
fetch result for its own identifier. -/
theorem mkPayloadOpt_workflow {D : Type} (env : Env D) (st : WatermarkState)
    (wf : WorkflowItem) (p : Payload D) (h : mkPayloadOpt env st wf = some p) :
    p.workflow = (if env.emitFullWorkflow then env.fetchDetail p.id else none) := by
  obtain ⟨wid, wname, wupd, wupd2⟩ := wf
  cases wid with
  | none => simp [mkPayloadOpt] at h
  | some id =>
    by_cases hex : env.matchesExclude (wname.getD ("workflow-" ++ id)) = true
    · simp [mkPayloadOpt, hex] at h
    · by_cases hse : shouldEmit env.parse
          ⟨wupd <|> wupd2, st.lastSync, getKey st.seenMap id⟩ = true
      · simp [mkPayloadOpt, hex, hse] at h
        rw [← h]
      · simp [mkPayloadOpt, hex, hse] at h

/-- Every payload produced by the scan whose detail fetch failed
carries no detail field. -/
theorem scanItems_workflow_none {D : Type} (env : Env D) (st : WatermarkState) :
    ∀ (items : List WorkflowItem) (cnt : Nat) (p : Payload D),
      p ∈ scanItems env st cnt items → env.fetchDetail p.id = none →
      p.workflow = none := by
  intro items
  induction items with
  | nil => intro cnt p hp; simp [scanItems] at hp
  | cons wf rest ih =>
    intro cnt p hp hf
    cases hmk : mkPayloadOpt env st wf with
    | none =>
      rw [scanItems, hmk] at hp
      exact ih cnt p hp hf
    | some q =>
      rw [scanItems, hmk] at hp
      have hp' : p ∈ (if 0 < env.maxPerCycle ∧ env.maxPerCycle ≤ (cnt : Int) + 1
          then [q] else q :: scanItems env st (cnt + 1) rest) := hp
      by_cases hcap : 0 < env.maxPerCycle ∧ env.maxPerCycle ≤ (cnt : Int) + 1
      · rw [if_pos hcap] at hp'
        have hpq : p = q := List.mem_singleton.mp hp'
        subst hpq
        rw [mkPayloadOpt_workflow env st wf p hmk, hf]
        cases env.emitFullWorkflow <;> rfl
      · rw [if_neg hcap] at hp'
        rcases List.mem_cons.mp hp' with hpq | hrest
        · subst hpq
          rw [mkPayloadOpt_workflow env st wf p hmk, hf]
          cases env.emitFullWorkflow <;> rfl
        · exact ih (cnt + 1) p hrest hf

/-- C7: enrichment is best-effort — which items are emitted, and
their identifier, name, and updatedAt fields, are identical for any
two detail fetchers; and an emitted item whose detail fetch failed is
emitted with the detail field absent. -/
theorem enrichment_best_effort {D : Type} (env : Env D) (st : WatermarkState)
    (cnt : Nat) (items : List WorkflowItem) (f g : String → Option D) :
    ((scanItems { env with fetchDetail := f } st cnt items).map coreFields =
      (scanItems { env with fetchDetail := g } st cnt items).map coreFields) ∧
    (∀ p ∈ scanItems env st cnt items, env.fetchDetail p.id = none →
      p.workflow = none) :=
  ⟨scanItems_core_fetch env st f g items cnt,
    fun p hp hf => scanItems_workflow_none env st items cnt p hp hf⟩

/-- Environment asking for full-workflow enrichment whose every
detail fetch fails. -/
def envFull : Env Nat := { envNoCap with emitFullWorkflow := true }

/-- Witness for C7: the qualifying item a is still emitted, without
detail, although its enrichment fetch failed. -/
theorem enrichment_best_effort_witness : payloadA.workflow = none :=
  (enrichment_best_effort envFull st0 0 [itemA]
      (fun _ => none) (fun _ => none)).2 payloadA (by decide) (by decide)

/-- Scan with a non-positive cap: the loop never breaks and emits one
payload per qualifying candidate, in listing order. -/
theorem scanItems_nocap {D : Type} (env : Env D) (st : WatermarkState)
    (hmax : env.maxPerCycle ≤ 0) :
    ∀ (items : List WorkflowItem) (cnt : Nat),
      scanItems env st cnt items = items.filterMap (mkPayloadOpt env st) := by
  intro items
  induction items with
  | nil => intro cnt; rfl
  | cons wf rest ih =>
    intro cnt
    cases hmk : mkPayloadOpt env st wf with
    | none => simp [scanItems, hmk, List.filterMap_cons, ih cnt]
    | some p =>
      have hcap : ¬(0 < env.maxPerCycle ∧ env.maxPerCycle ≤ (cnt : Int) + 1) := by
        rintro ⟨h1, -⟩
        omega
      simp [scanItems, hmk, hcap, List.filterMap_cons, ih (cnt + 1)]

/-- Scan with a positive cap and `cnt` already-pushed payloads: the
result is the uncapped batch truncated to the remaining budget. -/
theorem scanItems_cap_take {D : Type} (env : Env D) (st : WatermarkState)
    (hmax : 0 < env.maxPerCycle) :
    ∀ (items : List WorkflowItem) (cnt : Nat), (cnt : Int) < env.maxPerCycle →
      scanItems env st cnt items =
        (items.filterMap (mkPayloadOpt env st)).take (env.maxPerCycle.toNat - cnt) := by
  intro items
  induction items with
  | nil => intro cnt h; simp [scanItems]
  | cons wf rest ih =>
    intro cnt hcnt
    cases hmk : mkPayloadOpt env st wf with
    | none => simp [scanItems, hmk, List.filterMap_cons, ih cnt hcnt]
    | some p =>
      by_cases hbr : env.maxPerCycle ≤ (cnt : Int) + 1
      · have h1 : env.maxPerCycle.toNat - cnt = 1 := by omega
        simp [scanItems, hmk, hbr, hmax, List.filterMap_cons, h1]
      · have h2 : env.maxPerCycle.toNat - cnt =
            (env.maxPerCycle.toNat - (cnt + 1)) + 1 := by omega
        have hcnt' : ((cnt + 1 : Nat) : Int) < env.maxPerCycle := by
          push_cast
          omega
        simp [scanItems, hmk, hbr, List.filterMap_cons, h2,
          List.take_succ_cons, ih (cnt + 1) hcnt']

/-- C8: with a strictly positive configured cap the emitted batch is
the qualifying candidates truncated at the cap (scanning stops as
soon as the cap is reached); with a zero or negative cap every
qualifying candidate in the listing is emitted. -/
theorem maxPerCycle_cap {D : Type} (env : Env D) (st : WatermarkState)
    (items : List WorkflowItem) :
    (0 < env.maxPerCycle →
      scanItems env st 0 items =
        (items.filterMap (mkPayloadOpt env st)).take env.maxPerCycle.toNat) ∧
    (env.maxPerCycle ≤ 0 →
      scanItems env st 0 items = items.filterMap (mkPayloadOpt env st)) := by
  constructor
  · intro h
    have h0 : ((0 : Nat) : Int) < env.maxPerCycle := by exact_mod_cast h
    have := scanItems_cap_take env st h items 0 h0
    simpa using this
  · intro h
    exact scanItems_nocap env st h items 0

/-- Witness for C8: with cap 1 and two qualifying items, only the
first is emitted. -/
theorem maxPerCycle_cap_witness :
    scanItems envEx st0 0 [itemA, itemB] =
      ([itemA, itemB].filterMap (mkPayloadOpt envEx st0)).take
        envEx.maxPerCycle.toNat :=
  (maxPerCycle_cap envEx st0 [itemA, itemB]).1 (by decide)

/-- C2 counterexample: with a batch cap of 1 and an item whose
timestamp lies beyond the emission wall-clock time, a second cycle
over the unchanged listing emits again.  First cycle: item a emitted,
the cap stops the scan before item b; `lastSync` becomes `"t2"`.
Second cycle: item b (time `"t3"`, beyond `"t2"`) now qualifies. -/
theorem secondCycle_reemits_cex :
    ((runCycle envEx st0 (.ok [itemA, itemB]) "t2").2 = some [payloadA]) ∧
    ((runCycle envEx (runCycle envEx st0 (.ok [itemA, itemB]) "t2").1
        (.ok [itemA, itemB]) "t2").2 = some [payloadB]) := by decide

/-- A candidate whose (parsed) update time is at or before the parsed
`lastSync` watermark is never emitted. -/
theorem shouldEmit_false_of_le (parse : String → Option Int)
    (updAt : Option String) (now : String) (sn : Option String) (n : Int)
    (hne : now ≠ "") (hn : parse now = some n)
    (hall : ∀ s u, updAt = some s → parse s = some u → u ≤ n) :
    shouldEmit parse ⟨updAt, now, sn⟩ = false := by
  cases updAt with
  | none => rfl
  | some str =>
    by_cases hstr : str = ""
    · simp [shouldEmit, hstr]
    · cases hpu : parse str with
      | none => simp [shouldEmit, hstr, hpu]
      | some u =>
        rw [shouldEmit_some parse str now sn u hstr hpu]
        rw [show defaultStr now = now from if_neg hne, hn]
        have hun : u ≤ n := hall str u rfl hpu
        have hfalse : jsGtMs u (some n) = false := by
          simp only [jsGtMs, decide_eq_false_iff_not]
          omega
        rw [hfalse, Bool.false_and]

/-- An item all of whose possible update times are at or before the
parsed `lastSync` watermark produces no payload. -/
theorem mkPayloadOpt_none_of_le {D : Type} (env : Env D) (st : WatermarkState)
    (wf : WorkflowItem) (n : Int)
    (hne : st.lastSync ≠ "") (hn : env.parse st.lastSync = some n)
    (hall : ∀ s u, (wf.updatedAt <|> wf.updated_at) = some s →
      env.parse s = some u → u ≤ n) :
    mkPayloadOpt env st wf = none := by
  obtain ⟨wid, wname, wupd, wupd2⟩ := wf
  cases wid with
  | none => rfl
  | some id =>
    by_cases hex : env.matchesExclude (wname.getD ("workflow-" ++ id)) = true
    · simp [mkPayloadOpt, hex]
    · have hse : shouldEmit env.parse
          ⟨wupd <|> wupd2, st.lastSync, getKey st.seenMap id⟩ = false :=
        shouldEmit_false_of_le env.parse (wupd <|> wupd2) st.lastSync
          (getKey st.seenMap id) n hne hn hall
      simp [mkPayloadOpt, hex, hse]

/-- A listing in which no item produces a payload scans to the empty
batch, whatever the running count. -/
theorem scanItems_nil_of_none {D : Type} (env : Env D) (st : WatermarkState) :
    ∀ (items : List WorkflowItem),
      (∀ wf ∈ items, mkPayloadOpt env st wf = none) →
      ∀ (cnt : Nat), scanItems env st cnt items = [] := by
  intro items
  induction items with
  | nil => intro _ cnt; rfl
  | cons wf rest ih =>
    intro h cnt
    have h0 := h wf (List.mem_cons_self wf rest)
    rw [scanItems, h0]
    exact ih (fun x hx => h x (List.mem_cons_of_mem wf hx)) cnt

/-- C2 amended: immediately re-running a cycle that emitted, over the
unchanged listing, emits nothing — provided no listed item's parsed
update time lies beyond the parsed emission wall-clock time, since
the first cycle has advanced `lastSync` to that wall-clock string and
every decision fails its strict comparison against it.  (Without the
proviso the claim fails: see the counterexample, where a
beyond-the-clock item deferred by the cap is emitted again.) -/
theorem secondCycle_emits_nothing {D : Type} (env : Env D)
    (st : WatermarkState) (items : List WorkflowItem) (now now2 : String)
    (n : Int) (b : List (Payload D))
    (hne : now ≠ "")
    (hn : env.parse now = some n)
    (hall : ∀ wf ∈ items, ∀ s u, (wf.updatedAt <|> wf.updated_at) = some s →
      env.parse s = some u → u ≤ n)
    (hemit : (runCycle env st (.ok items) now).2 = some b) :
    (runCycle env (runCycle env st (.ok items) now).1 (.ok items) now2).2 =
      none := by
  cases hscan : scanItems env st 0 items with
  | nil => simp [runCycle, hscan] at hemit
  | cons p rest =>
    have hrun : (runCycle env st (.ok items) now).1 =
        ⟨now, (p :: rest).foldl (fun m q => setKey m q.id q.updatedAt)
          st.seenMap⟩ := by
      simp [runCycle, hscan]
    rw [hrun]
    have hempty : scanItems env
        (⟨now, rest.foldl (fun m q => setKey m q.id q.updatedAt)
          (setKey st.seenMap p.id p.updatedAt)⟩ : WatermarkState) 0 items = [] :=
      scanItems_nil_of_none env _ items
        (fun wf hwf => mkPayloadOpt_none_of_le env _ wf n hne hn
          (fun s u hs hu => hall wf hwf s u hs hu)) 0
    simp [runCycle, hempty]

/-- Witness for C2 (amended): one item, emitted once; the immediate
re-run over the same listing emits nothing. -/
theorem secondCycle_emits_nothing_witness :
    (runCycle envNoCap (runCycle envNoCap st0 (.ok [itemA]) "t2").1
      (.ok [itemA]) "t2").2 = none :=
  secondCycle_emits_nothing envNoCap st0 [itemA] "t2" "t2" 20 [payloadA]
    (by decide) (by decide)
    (by
      intro wf hwf s u hs hu
      have hw : wf = itemA := List.mem_singleton.mp hwf
      subst hw
      have hs' : (some "t1" : Option String) = some s := hs
      cases hs'
      have h10 : envNoCap.parse "t1" = some 10 := by decide
      rw [h10] at hu
      cases hu
      omega)
    (by decide)

/-- C4 counterexample: when the listing carries the same identifier
twice with different timestamps, both records are emitted but the
assignment loop leaves `seenMap` at the second record's `updatedAt`,
so the first emitted record's identifier is not mapped to that
record's own `updatedAt`. -/
theorem seenMap_lastWins_cex :
    (((runCycle envNoCap st0 (.ok [itemA, itemA2]) "t3").2.getD []).map
        coreFields = [("a", "A", "t1"), ("a", "A", "t2")]) ∧
    (getKey (runCycle envNoCap st0 (.ok [itemA, itemA2]) "t3").1.seenMap "a" =
      some "t2") ∧
    ("t2" : String) ≠ "t1" := by decide

/-- Assignment then lookup of the same key. -/
theorem getKey_setKey_same (m : List (String × String)) (k v : String) :
    getKey (setKey m k v) k = some v := by
  induction m with
  | nil => simp [setKey, getKey]
  | cons kv rest ih =>
    obtain ⟨k', v'⟩ := kv
    by_cases hk : k' = k
    · simp [setKey, hk, getKey]
    · simp [setKey, hk, getKey, ih]

/-- Assignment leaves every other key's binding unchanged. -/
theorem getKey_setKey_other (m : List (String × String)) (k v k' : String)
    (h : k ≠ k') : getKey (setKey m k v) k' = getKey m k' := by
  induction m with
  | nil => simp [setKey, getKey, h]
  | cons kv rest ih =>
    obtain ⟨k0, v0⟩ := kv
    by_cases hk : k0 = k
    · subst hk
      simp [setKey, getKey, h]
    · simp [setKey, hk, getKey, ih]

/-- The per-batch assignment loop touches no key outside the batch. -/
theorem getKey_foldl_frame {D : Type} (b : List (Payload D)) :
    ∀ (m : List (String × String)) (k : String), (∀ p ∈ b, p.id ≠ k) →
      getKey (b.foldl (fun m q => setKey m q.id q.updatedAt) m) k =
        getKey m k := by
  induction b with
  | nil => intro m k _; rfl
  | cons p rest ih =>
    intro m k h
    rw [List.foldl_cons]
    rw [ih _ k (fun q hq => h q (List.mem_cons_of_mem p hq))]
    exact getKey_setKey_other m p.id p.updatedAt k (h p (List.mem_cons_self p rest))

/-- Assignment then lookup, in one statement. -/
theorem getKey_setKey (m : List (String × String)) (k v k' : String) :
    getKey (setKey m k v) k' = if k = k' then some v else getKey m k' := by
  by_cases h : k = k'
  · subst h
    simp [getKey_setKey_same]
  · simp [h, getKey_setKey_other m k v k' h]

/-- The `updatedAt` of the last record in `b` whose identifier is
`k`, if any: the specification value of the batch write loop
`for item of toEmit: seenMap[id] = updatedAt`, whose later
assignments override earlier ones. -/
def lastUpdatedFor {D : Type} (b : List (Payload D)) (k : String) :
    Option String :=
  match b with
  | [] => none
  | q :: rest =>
    (lastUpdatedFor rest k) <|> (if q.id = k then some q.updatedAt else none)

/-- Sanity of the selector: appending a record overrides the
selection exactly for that record's identifier. -/
theorem lastUpdatedFor_append {D : Type} (b : List (Payload D)) (p : Payload D)
    (k : String) :
    lastUpdatedFor (b ++ [p]) k =
      (if p.id = k then some p.updatedAt else lastUpdatedFor b k) := by
  induction b with
  | nil => simp [lastUpdatedFor]
  | cons q rest ih =>
    by_cases hp : p.id = k
    · simp [lastUpdatedFor, ih, hp]
    · simp [lastUpdatedFor, ih, hp]

/-- The per-batch assignment loop realizes the last-wins selector:
after it, a key reads as the last batch record carrying it, and as
before when no batch record carries it. -/
theorem getKey_foldl_eq {D : Type} (b : List (Payload D)) :
    ∀ (m : List (String × String)) (k : String),
      getKey (b.foldl (fun m q => setKey m q.id q.updatedAt) m) k =
        ((lastUpdatedFor b k) <|> getKey m k) := by
  induction b with
  | nil => intro m k; simp [lastUpdatedFor]
  | cons q rest ih =>
    intro m k
    rw [List.foldl_cons, ih, getKey_setKey m q.id q.updatedAt k]
    cases hrest : lastUpdatedFor rest k with
    | some v => simp [lastUpdatedFor, hrest]
    | none =>
      by_cases hq : q.id = k
      · simp [lastUpdatedFor, hrest, hq]
      · simp [lastUpdatedFor, hrest, hq]

/-- After the per-batch assignment loop, a batch identifier whose
records all agree on `updatedAt` is mapped to that `updatedAt`. -/
theorem getKey_foldl_batch {D : Type} (b : List (Payload D)) :
    ∀ (m : List (String × String)) (p : Payload D), p ∈ b →
      (∀ q ∈ b, q.id = p.id → q.updatedAt = p.updatedAt) →
      getKey (b.foldl (fun m q => setKey m q.id q.updatedAt) m) p.id =
        some p.updatedAt := by
  induction b with
  | nil => intro m p hp; cases hp
  | cons r rest ih =>
    intro m p hp hagree
    rw [List.foldl_cons]
    by_cases hin : ∃ q ∈ rest, q.id = p.id
    · obtain ⟨q, hq, hqid⟩ := hin
      have hqp : q.updatedAt = p.updatedAt :=
        hagree q (List.mem_cons_of_mem r hq) hqid
      have hmain := ih (setKey m r.id r.updatedAt) q hq (fun q' hq' hq'id => by
        rw [hqp]
        exact hagree q' (List.mem_cons_of_mem r hq') (hq'id.trans hqid))
      rw [← hqid, ← hqp]
      exact hmain
    · have hpr : p.id = r.id := by
        rcases List.mem_cons.mp hp with h | h
        · rw [h]
        · exact absurd ⟨p, h, rfl⟩ hin
      rw [getKey_foldl_frame rest _ p.id (fun q hq hqid => hin ⟨q, hq, hqid⟩)]
      rw [hpr, getKey_setKey_same]
      rw [hagree r (List.mem_cons_self r rest) hpr.symm]

/-- C4 amended: after a cycle whose batch is non-empty, `lastSync`
equals the wall-clock string observed at emission (not any item's own
timestamp); `seenMap` binds each batch identifier to the `updatedAt`
of the last emitted record carrying it — hence to each record's own
`updatedAt` whenever the batch's records sharing an identifier agree
on it, and in particular whenever batch identifiers are distinct —
and every identifier outside the batch keeps its previous binding. -/
theorem emit_updates_state {D : Type} (env : Env D) (st st' : WatermarkState)
    (items : List WorkflowItem) (now : String) (b : List (Payload D))
    (h : runCycle env st (.ok items) now = (st', some b)) :
    st'.lastSync = now ∧
    (∀ k, (∀ p ∈ b, p.id ≠ k) → getKey st'.seenMap k = getKey st.seenMap k) ∧
    (∀ k, getKey st'.seenMap k = ((lastUpdatedFor b k) <|> getKey st.seenMap k)) ∧
    (∀ p ∈ b, (∀ q ∈ b, q.id = p.id → q.updatedAt = p.updatedAt) →
      getKey st'.seenMap p.id = some p.updatedAt) := by
  cases hscan : scanItems env st 0 items with
  | nil =>
    rw [runCycle] at h
    rw [hscan] at h
    cases h
  | cons p rest =>
    rw [runCycle] at h
    rw [hscan] at h
    obtain ⟨h1, h2⟩ := Prod.mk.injEq .. |>.mp h
    obtain rfl : p :: rest = b := Option.some_inj.mp h2
    subst h1
    refine ⟨rfl, ?_, ?_, ?_⟩
    · intro k hk
      exact getKey_foldl_frame (p :: rest) st.seenMap k hk
    · intro k
      exact getKey_foldl_eq (p :: rest) st.seenMap k
    · intro q hq hagree
      exact getKey_foldl_batch (p :: rest) st.seenMap q hq hagree

/-- Payload emitted for `itemA2` (identifier a again, time `"t2"`). -/
def payloadA2 : Payload Nat := ⟨"a", "A", "t2", none⟩

/-- Witness for C4 (amended): on the disagreeing-duplicate batch, the
identifier a ends bound to the last emitted record's `updatedAt`. -/
theorem emit_updates_state_witness :
    getKey (runCycle envNoCap st0 (.ok [itemA, itemA2]) "t3").1.seenMap "a" =
      some "t2" := by
  have h := (emit_updates_state envNoCap st0
      (runCycle envNoCap st0 (.ok [itemA, itemA2]) "t3").1
      [itemA, itemA2] "t3" [payloadA, payloadA2] (by decide)).2.2.1 "a"
  rw [h]
  decide

/-- C10 counterexample: with a batch cap of 1, a listing holding the
same qualifying item twice emits only one occurrence — the cap stops
the scan before the second occurrence is considered. -/
theorem capOne_duplicate_cex :
    ((runCycle envEx st0 (.ok [itemA, itemA]) "t2").2.getD []).length = 1 := by
  decide

/-- C10 amended: within a cycle every decision is taken against the
start-of-cycle watermarks (`scanItems` reads only the fixed pre-cycle
state `st`; `seenMap` is written only after the batch); hence a
listing holding the same qualifying item twice emits both occurrences
in the same batch — provided the configured cap does not stop the
scan first (cap non-positive, or at least 2). -/
theorem duplicate_both_emitted {D : Type} (env : Env D) (st : WatermarkState)
    (wf : WorkflowItem) (p : Payload D)
    (hcap : env.maxPerCycle ≤ 0 ∨ 2 ≤ env.maxPerCycle)
    (hq : mkPayloadOpt env st wf = some p) :
    scanItems env st 0 [wf, wf] = [p, p] := by
  simp only [scanItems, hq, ite_self]
  split
  · next hcond =>
      exfalso
      obtain ⟨ha, hb⟩ := hcond
      rcases hcap with h | h <;> omega
  · rfl

/-- Witness for C10 (amended): with no cap, both occurrences of the
duplicated item are emitted in the same batch. -/
theorem duplicate_both_emitted_witness :
    scanItems envNoCap st0 0 [itemA, itemA] = [payloadA, payloadA] :=
  duplicate_both_emitted envNoCap st0 itemA payloadA
    (Or.inl (by decide)) (by decide)

end GWUT
